import Mathlib

/-!
Shallow embedding of the directory-scanning / manifest-generation core of the
repository (the indexer script): the gitignore-style pattern matcher
(`is_ignored`), the hashing front-end (`calculate_file_hash`), the ignore-file
parser (`parse_gitignore`) and the recursive walk (`scan_directory`), together
with theorems settling the frozen claims about them.

Filesystem effects are made explicit: a directory tree is a pure `Entry` value,
a file's stat result and readable content are `Option`s, the SHA-256 function,
the mimetype guesser and the UUID stream are parameters of the scan.  The walk
recursion and the UUID retry loop are totalised with a fuel argument: exhausted
fuel returns `none` where the original program would simply keep running.
-/

namespace Indexer

/-- One token of the compiled ignore pattern.  The source builds a regex by the
replacements `. -> \.`, `* -> .*`, `? -> .` applied to the raw pattern, so the
compiled form is a sequence of literal characters (`lit`), single-character
wildcards (`anyOne`, from `?`) and unbounded wildcards (`anyStar`, from `*`). -/
inductive GTok where
  | lit : Char → GTok
  | anyOne : GTok
  | anyStar : GTok
deriving DecidableEq, Repr

/-- Fuelled full-match of a compiled pattern against a character list,
mirroring `re.match("^" + regex + "$", check_path)` for the regexes the source
builds.  Each step decreases `tokens.length + chars.length`, so any fuel above
that bound gives the true answer; `gmatch` below supplies such a bound. -/
def gmatchF : Nat → List GTok → List Char → Bool
  | 0, _, _ => false
  | fuel + 1, ts, cs =>
    match ts, cs with
    | [], [] => true
    | [], _ :: _ => false
    | GTok.lit _ :: _, [] => false
    | GTok.lit c :: ts2, x :: xs => c == x && gmatchF fuel ts2 xs
    | GTok.anyOne :: _, [] => false
    | GTok.anyOne :: ts2, _ :: xs => gmatchF fuel ts2 xs
    | GTok.anyStar :: ts2, [] => gmatchF fuel ts2 []
    | GTok.anyStar :: ts2, x :: xs =>
        gmatchF fuel ts2 (x :: xs) || gmatchF fuel (GTok.anyStar :: ts2) xs

/-- Full-match of a compiled pattern against a character list. -/
def gmatch (ts : List GTok) (cs : List Char) : Bool :=
  gmatchF (ts.length + cs.length + 1) ts cs

/-- Translate one raw character of an ignore pattern to a token, following the
source's replacement chain `. -> \.`, `* -> .*`, `? -> .`. -/
def tokOf (c : Char) : GTok :=
  if c = '*' then GTok.anyStar else if c = '?' then GTok.anyOne else GTok.lit c

/-- Boolean prefix test on character lists. -/
def startsB : List Char → List Char → Bool
  | [], _ => true
  | _ :: _, [] => false
  | a :: as, b :: bs => a == b && startsB as bs

/-- Python's `s.startswith(pre)`. -/
def startsWithB (s pre : String) : Bool :=
  startsB pre.data s.data

/-- Python's `s.endswith(suf)`. -/
def endsWithB (s suf : String) : Bool :=
  startsB suf.data.reverse s.data.reverse

/-- Python's notion of whitespace for `str.strip()`. -/
def isPySpace (c : Char) : Bool :=
  c = ' ' || c = '\t' || c = '\n' || c = '\r' || c = '\x0b' || c = '\x0c'

/-- Python's `s.strip()`. -/
def pyStrip (s : String) : String :=
  String.mk (((s.data.dropWhile isPySpace).reverse.dropWhile isPySpace).reverse)

/-- Compile one ignore pattern (negation marker already stripped) to tokens:
strip a trailing `/` (directory-only marker), then, when the pattern contains
no `/`, prepend `.*` so it matches anywhere in the path. -/
def compilePat (p : String) : List GTok :=
  let stripped := if endsWithB p "/" then p.dropRight 1 else p
  let toks := stripped.data.map tokOf
  if stripped.data.contains '/' then toks else GTok.anyStar :: toks

/-- Strip a leading `!` negation marker. -/
def stripNeg (p : String) : String :=
  if startsWithB p "!" then p.drop 1 else p

/-- The path actually matched: `os.path.join('.', rel_path)` when `rel_path`
is non-empty, else `"."`. -/
def checkPathOf (rel_path : String) : String :=
  if rel_path = "" then "." else "./" ++ rel_path

/-- The pattern loop of `is_ignored`: walk the patterns in file order and
return `not is_negation` for the first pattern whose compiled regex fully
matches the check path; `false` when no pattern matches. -/
def ignoreLoop (check_path : String) : List String → Bool
  | [] => false
  | p :: ps =>
      if gmatch (compilePat (stripNeg p)) check_path.data then
        !(startsWithB p "!")
      else ignoreLoop check_path ps

/-- `is_ignored(file_path, rel_path, gitignore_patterns)` from the source:
decide whether a path is excluded by the parsed ignore-file patterns.
`file_path` is accepted but, as in the source, never used for matching. -/
def is_ignored (file_path rel_path : String) (gitignore_patterns : List String) : Bool :=
  ignoreLoop (checkPathOf rel_path) gitignore_patterns

/-- `parse_gitignore`: keep the stripped non-empty, non-comment lines. -/
def parse_gitignore (lines : List String) : List String :=
  (lines.map pyStrip).filter (fun l => !(l = "" || startsWithB l "#"))

/-- `calculate_file_hash(file_path, skip_hash)`: return `"skipped"` without
touching the file when `skip_hash` is set; otherwise hash the content, or
return `"hash_error"` when the content cannot be read (`content = none`). -/
def calculate_file_hash (sha256 : List Nat → String)
    (content : Option (List Nat)) (skip_hash : Bool) : String :=
  if skip_hash then "skipped"
  else
    match content with
    | some bytes => sha256 bytes
    | none => "hash_error"

/-- Boolean substring test on character lists. -/
def strInAux : List Char → List Char → Bool
  | p, [] => startsB p []
  | p, c :: s => startsB p (c :: s) || strInAux p s

/-- Python's `needle in hay` on strings: substring containment. -/
def strIn (needle hay : String) : Bool :=
  strInAux needle.data hay.data

/-- Successful `os.stat` data used by the scan. -/
structure FileStat where
  ctime : String
  mtime : String
  size : Nat
deriving DecidableEq, Repr

/-- The `metadata` mapping of a file record. -/
structure FileMeta where
  created_date : String
  last_modified : String
  last_reviewed : String
  size_bytes : Nat
  hash : String
deriving DecidableEq, Repr

/-- One file entry of the manifest. -/
structure FileRecord where
  id : String
  folder : String
  file_name : String
  file_type : String
  metadata : FileMeta
  description : String
  security_observations : String
deriving DecidableEq, Repr

/-- One folder entry of the manifest. -/
structure FolderRecord where
  path : String
  files : List FileRecord
deriving DecidableEq, Repr

/-- The pure part of the scan result: the counters of `scan_info` and the
folder list (timestamps and durations are wall-clock effects, outside the
embedding). -/
structure ScanResult where
  total_folders : Nat
  total_files : Nat
  folders : List FolderRecord
deriving DecidableEq, Repr

/-- A directory tree handed to the walk.  A file carries its name, its stat
result (`none` models a raised `os.stat`) and its readable content (`none`
models a read failure inside hashing). -/
inductive Entry where
  | file : String → Option FileStat → Option (List Nat) → Entry
  | dir : String → List Entry → Entry

/-- The ambient effectful interfaces of the scan: the UUID stream (`ids`), the
retry bound for the UUID collision loop (`idFuel`), the SHA-256 oracle and the
mimetype guesser (`none` models `guess_type` returning no type). -/
structure ScanEnv where
  ids : Nat → String
  idFuel : Nat
  sha256 : List Nat → String
  guessType : String → Option String

/-- The full configuration the inner walk works with. -/
structure ScanCfg where
  env : ScanEnv
  ignorePats : List String
  gitPats : List String
  skipHash : Bool

/-- The mutable scan state: the UUID stream position, the `used_ids` set (as a
list in insertion order) and the accumulating result fields. -/
structure ScanState where
  idx : Nat
  used : List String
  folders : List FolderRecord
  total_folders : Nat
  total_files : Nat

/-- The UUID retry loop: draw `ids i`, redraw while the draw is already in
`used`.  Fuel totalises the loop; `none` stands for a run that never finds a
fresh identifier. -/
def pickFresh (ids : Nat → String) : Nat → Nat → List String → Option (String × Nat)
  | 0, _, _ => none
  | fuel + 1, i, used =>
      if used.contains (ids i) then pickFresh ids fuel (i + 1) used
      else some (ids i, i + 1)

/-- `os.path.splitext`'s extension: the suffix from the last `.`, empty when
there is no dot or when every character before the last dot is itself a dot. -/
def extOf (name : String) : String :=
  let cs := name.data
  match (List.range cs.length).filter (fun i => cs.getD i ' ' = '.') with
  | [] => ""
  | i :: rest =>
      let d := (i :: rest).getLast (List.cons_ne_nil i rest)
      if (cs.take d).all (fun c => c = '.') then "" else String.mk (cs.drop d)

/-- `mimetypes.guess_type(filename)[0] or "unknown" + extension`. -/
def fileTypeOf (env : ScanEnv) (name : String) : String :=
  match env.guessType name with
  | some t => t
  | none => "unknown" ++ extOf name

/-- The file entry built on the success path of the per-file `try`. -/
def mkOkRecord (fid rp name ftype : String) (s : FileStat) (h : String) : FileRecord :=
  { id := fid, folder := rp, file_name := name, file_type := ftype,
    metadata := { created_date := s.ctime, last_modified := s.mtime,
                  last_reviewed := "", size_bytes := s.size, hash := h },
    description := "", security_observations := "" }

/-- The degraded file entry built when per-file metadata processing raises. -/
def mkErrRecord (fid rp name ftype : String) : FileRecord :=
  { id := fid, folder := rp, file_name := name, file_type := ftype,
    metadata := { created_date := "", last_modified := "",
                  last_reviewed := "", size_bytes := 0, hash := "error" },
    description := "Error processing file",
    security_observations := "File could not be processed, may require manual review" }

/-- The file entry built for one surviving file: the normal entry when the
stat succeeded (with the hash from `calculate_file_hash`), the degraded entry
when it raised. -/
def fileEntryOf (cfg : ScanCfg) (fid rp name : String)
    (stat : Option FileStat) (content : Option (List Nat)) : FileRecord :=
  match stat with
  | some s =>
      mkOkRecord fid rp name (fileTypeOf cfg.env name) s
        (calculate_file_hash cfg.env.sha256 content cfg.skipHash)
  | none => mkErrRecord fid rp name (fileTypeOf cfg.env name)

/-- `os.path.join(rel, name)` for the relative paths the scan builds. -/
def fileRel (rp name : String) : String :=
  if rp = "" then name else rp ++ "/" ++ name

/-- `os.path.join(root, child)` for the absolute paths the scan builds. -/
def joinPath (root child : String) : String :=
  root ++ "/" ++ child

/-- The `for filename in files` loop of `scan_directory`: skip names matching
the substring ignore list, skip paths excluded by the ignore-file rules, then
allocate a fresh id and append the (normal or degraded) file entry. -/
def processFiles (cfg : ScanCfg) (fp rp : String) :
    List (String × Option FileStat × Option (List Nat)) → ScanState →
      List FileRecord → Option (ScanState × List FileRecord)
  | [], st, acc => some (st, acc)
  | (name, stat, content) :: rest, st, acc =>
      if cfg.ignorePats.any (fun p => strIn p name) then
        processFiles cfg fp rp rest st acc
      else if is_ignored (joinPath fp name) (fileRel rp name) cfg.gitPats then
        processFiles cfg fp rp rest st acc
      else
        match pickFresh cfg.env.ids cfg.env.idFuel st.idx st.used with
        | none => none
        | some (fid, idx2) =>
            processFiles cfg fp rp rest
              { st with idx := idx2, used := st.used ++ [fid] }
              (acc ++ [fileEntryOf cfg fid rp name stat content])

/-- Process one visited directory: run the file loop, then append the folder
entry and bump the counters only when at least one file survived. -/
def processFolder (cfg : ScanCfg) (fp rp : String)
    (fs : List (String × Option FileStat × Option (List Nat)))
    (st : ScanState) : Option ScanState :=
  match processFiles cfg fp rp fs st [] with
  | none => none
  | some (st2, entries) =>
      if entries = [] then some st2
      else
        some { st2 with
               folders := st2.folders ++ [{ path := rp, files := entries }],
               total_folders := st2.total_folders + 1,
               total_files := st2.total_files + entries.length }

/-- The files of a directory's entry list, in iteration order (the `files`
component of one `os.walk` step). -/
def filesOf : List Entry → List (String × Option FileStat × Option (List Nat))
  | [] => []
  | Entry.file n s c :: rest => (n, s, c) :: filesOf rest
  | Entry.dir _ _ :: rest => filesOf rest

/-- Relative path of a child directory. -/
def childRel (rp d : String) : String :=
  if rp = "" then d else rp ++ "/" ++ d

/-- The recursion into the subdirectories of one `os.walk` step, after the
`dirs[:]` pruning: subdirectories whose name contains a substring-ignore
pattern are removed before descending; the remaining ones are visited in
order through `go` (the walk at one less fuel). -/
def scanChildren (cfg : ScanCfg)
    (go : String → String → List Entry → ScanState → Option ScanState)
    (fp rp : String) : List Entry → ScanState → Option ScanState
  | [], st => some st
  | Entry.file _ _ _ :: rest, st => scanChildren cfg go fp rp rest st
  | Entry.dir d ces :: rest, st =>
      if cfg.ignorePats.any (fun p => strIn p d) then
        scanChildren cfg go fp rp rest st
      else
        match go (joinPath fp d) (childRel rp d) ces st with
        | none => none
        | some st2 => scanChildren cfg go fp rp rest st2

/-- One `os.walk` step at the directory with absolute path `fp`, relative path
`rp` and entry list `es`: when the full path contains a substring-ignore
pattern the directory's own record is skipped (`continue`), but — as in the
source, where the pruning of `dirs` has already happened — its surviving
children are still walked.  Fuel bounds the recursion depth. -/
def scanDir (cfg : ScanCfg) : Nat → String → String → List Entry → ScanState →
    Option ScanState
  | 0, _, _, _, _ => none
  | fuel + 1, fp, rp, es, st =>
      match
        (if cfg.ignorePats.any (fun p => strIn p fp) then some st
         else processFolder cfg fp rp (filesOf es) st) with
      | none => none
      | some st1 => scanChildren cfg (scanDir cfg fuel) fp rp es st1

/-- The substring ignore list used when the caller passes `None`. -/
def defaultIgnorePatterns : List String :=
  [".git", "__pycache__", "venv", "node_modules", ".DS_Store"]

/-- The initial scan state. -/
def initState : ScanState :=
  { idx := 0, used := [], folders := [], total_folders := 0, total_files := 0 }

/-- The effective ignore-file pattern list: the parsed `.gitignore` lines when
honoring is enabled and the file exists, otherwise none. -/
def gitPatsOf (use_gitignore : Bool) (gitignoreLines : Option (List String)) :
    List String :=
  if use_gitignore then
    match gitignoreLines with
    | some lines => parse_gitignore lines
    | none => []
  else []

/-- `scan_directory(target_dir, output_file, ignore_patterns, use_gitignore,
skip_hash)` from the source, with the filesystem and the effectful interfaces
made explicit: `tree` is the entry list of the target directory,
`gitignoreLines` the lines of the `.gitignore` file at the root when one
exists, `fuel` the walk-depth bound.  Serialisation to the output file is an
serialisation sink and is not modelled. -/
def scan_directory (env : ScanEnv) (fuel : Nat) (target_dir : String)
    (ignore_patterns : Option (List String)) (use_gitignore skip_hash : Bool)
    (tree : List Entry) (gitignoreLines : Option (List String)) :
    Option ScanResult :=
  let cfg : ScanCfg :=
    { env := env, ignorePats := ignore_patterns.getD defaultIgnorePatterns,
      gitPats := gitPatsOf use_gitignore gitignoreLines,
      skipHash := skip_hash }
  match scanDir cfg fuel target_dir "" tree initState with
  | none => none
  | some st =>
      some { total_folders := st.total_folders, total_files := st.total_files,
             folders := st.folders }

/-- The identifiers of a list of file records. -/
def recIds (rs : List FileRecord) : List String :=
  rs.map FileRecord.id

/-- All file identifiers of a manifest's folder list, in emission order. -/
def folderIds : List FolderRecord → List String
  | [] => []
  | f :: rest => recIds f.files ++ folderIds rest

/-- Total number of file records over a folder list. -/
def sumFiles : List FolderRecord → Nat
  | [] => 0
  | f :: rest => f.files.length + sumFiles rest

/-- The folder paths of a manifest, in emission order. -/
def pathsOf (fs : List FolderRecord) : List String :=
  fs.map FolderRecord.path

/-- The two shapes a file record emitted by the scan can have: the normal
shape (empty description; hash `"skipped"` whenever hashing is skipped) and
the degraded shape (description `"Error processing file"`, hash `"error"`). -/
def recShape (skip : Bool) (r : FileRecord) : Prop :=
  (r.description = "" ∧ r.security_observations = "" ∧
    (skip = true → r.metadata.hash = "skipped")) ∨
  (r.description = "Error processing file" ∧
    r.security_observations ≠ "" ∧ r.metadata.hash = "error")

/-- How one walk step may change the scan state: folders are append-only, the
`used_ids` list grows by exactly the new records' identifiers, no-duplication
of `used_ids` is preserved, the counters track the new folders, and every new
folder is non-empty with records of the two emitted shapes. -/
def StChange (skip : Bool) (st st2 : ScanState) : Prop :=
  ∃ newF,
    st2.folders = st.folders ++ newF ∧
    st2.used = st.used ++ folderIds newF ∧
    (st.used.Nodup → st2.used.Nodup) ∧
    st2.total_folders = st.total_folders + newF.length ∧
    st2.total_files = st.total_files + sumFiles newF ∧
    ∀ f ∈ newF, f.files ≠ [] ∧ ∀ r ∈ f.files, recShape skip r

/-- Joint shape of two scans of the same tree (one with ignore-file patterns,
one without): both only append folders, and the folder paths appended by the
first form a sublist of those appended by the second. -/
def PairChange (st st2 st' st2' : ScanState) : Prop :=
  ∃ d d',
    st2.folders = st.folders ++ d ∧
    st2'.folders = st'.folders ++ d' ∧
    (pathsOf d).Sublist (pathsOf d')

/-- Reference semantics written from the amended wording of the matcher
claim: the FIRST pattern in file order whose compiled regex matches the check
path determines the verdict (`true` = exclude unless the pattern is negated);
no match means not excluded. -/
def firstMatchVerdict (check_path : String) (ps : List String) : Bool :=
  match ps.find? (fun p => gmatch (compilePat (stripNeg p)) check_path.data) with
  | none => false
  | some p => !(startsWithB p "!")

/-- Replace every file content by `none` down to the walk-fuel depth: the
tree the scan would see if no file content were readable at all.  Used to
state that a hash-skipping scan never reads file content. -/
def eraseContentsL : Nat → List Entry → List Entry
  | 0, es => es
  | _ + 1, [] => []
  | fuel + 1, Entry.file n s _ :: rest =>
      Entry.file n s none :: eraseContentsL (fuel + 1) rest
  | fuel + 1, Entry.dir d ces :: rest =>
      Entry.dir d (eraseContentsL fuel ces) :: eraseContentsL (fuel + 1) rest
termination_by fuel es => (fuel, es.length)

/-- Erase the contents of a flat file list (the per-directory analogue of
`eraseContentsL`). -/
def eraseFilesL (fs : List (String × Option FileStat × Option (List Nat))) :
    List (String × Option FileStat × Option (List Nat)) :=
  fs.map (fun e => (e.1, e.2.1, none))

/-- A concrete UUID stream for evaluation: `"i"`, `"ia"`, `"iaa"`, … -/
def demoIds (n : Nat) : String :=
  String.mk ('i' :: List.replicate n 'a')

/-- A concrete environment for evaluation. -/
def demoEnv : ScanEnv :=
  { ids := demoIds, idFuel := 3, sha256 := fun _ => "h",
    guessType := fun _ => none }

/-- A concrete scan configuration for evaluation: default substring ignore
list, no ignore-file patterns, hashing enabled. -/
def demoCfg : ScanCfg :=
  { env := demoEnv, ignorePats := defaultIgnorePatterns, gitPats := [],
    skipHash := false }

/-- Fixture: a root with two temp files, scanned under the negation pair. -/
def treeC1 : List Entry :=
  [Entry.file "keep.tmp" (some ⟨"c", "m", 1⟩) (some []),
   Entry.file "other.tmp" (some ⟨"c", "m", 2⟩) (some [])]

/-- Fixture: `build/output.bin` and `src/main.txt`. -/
def treeC2 : List Entry :=
  [Entry.dir "build" [Entry.file "output.bin" (some ⟨"c", "m", 7⟩) (some [])],
   Entry.dir "src" [Entry.file "main.txt" (some ⟨"c", "m", 3⟩) (some [])]]

/-- The manifest the scan produces on `treeC2` under the pattern `build/`. -/
def resC2 : ScanResult :=
  ⟨2, 2,
   [⟨"build", [⟨"i", "build", "output.bin", "unknown.bin",
       ⟨"c", "m", "", 7, "h"⟩, "", ""⟩]⟩,
    ⟨"src", [⟨"ia", "src", "main.txt", "unknown.txt",
       ⟨"c", "m", "", 3, "h"⟩, "", ""⟩]⟩]⟩

/-- Fixture: one file whose stat succeeds but whose content is unreadable. -/
def treeC3 : List Entry :=
  [Entry.file "locked.txt" (some ⟨"c", "m", 5⟩) none]

/-- The manifest the scan produces on `treeC3`. -/
def resC3 : ScanResult :=
  ⟨1, 1, [⟨"", [⟨"i", "", "locked.txt", "unknown.txt",
     ⟨"c", "m", "", 5, "hash_error"⟩, "", ""⟩]⟩]⟩

/-- Fixture: a single ordinary file. -/
def treeC4 : List Entry :=
  [Entry.file "a.txt" (some ⟨"c", "m", 1⟩) (some [])]

/-- The manifest the scan produces on `treeC4`. -/
def resC4 : ScanResult :=
  ⟨1, 1, [⟨"", [⟨"i", "", "a.txt", "unknown.txt",
     ⟨"c", "m", "", 1, "h"⟩, "", ""⟩]⟩]⟩

/-- Fixture: one surviving file plus a subdirectory whose only file matches
the substring ignore list (so the subdirectory's folder record is dropped). -/
def treeC5 : List Entry :=
  [Entry.file "keep.txt" (some ⟨"c", "m", 1⟩) (some []),
   Entry.dir "sub" [Entry.file "b.gitx" (some ⟨"c", "m", 1⟩) (some [])]]

/-- The manifest the scan produces on `treeC5`. -/
def resC5 : ScanResult :=
  ⟨1, 1, [⟨"", [⟨"i", "", "keep.txt", "unknown.txt",
     ⟨"c", "m", "", 1, "h"⟩, "", ""⟩]⟩]⟩

/-- Fixture: two ordinary files in the root. -/
def treeC6 : List Entry :=
  [Entry.file "one.txt" (some ⟨"c", "m", 1⟩) (some []),
   Entry.file "two.txt" (some ⟨"c", "m", 2⟩) (some [])]

/-- The manifest the scan produces on `treeC6`. -/
def resC6 : ScanResult :=
  ⟨1, 2, [⟨"", [⟨"i", "", "one.txt", "unknown.txt",
     ⟨"c", "m", "", 1, "h"⟩, "", ""⟩,
    ⟨"ia", "", "two.txt", "unknown.txt",
     ⟨"c", "m", "", 2, "h"⟩, "", ""⟩]⟩]⟩

/-- Fixture: one file whose stat raises next to one ordinary file. -/
def treeC7 : List Entry :=
  [Entry.file "bad.bin" none none,
   Entry.file "ok.txt" (some ⟨"c", "m", 4⟩) (some [1])]

/-- The manifest a hash-skipping scan produces on `treeC7`: the degraded
record keeps hash `"error"`, the ordinary one gets `"skipped"`. -/
def resC7 : ScanResult :=
  ⟨1, 2, [⟨"", [⟨"i", "", "bad.bin", "unknown.bin",
     ⟨"", "", "", 0, "error"⟩, "Error processing file",
     "File could not be processed, may require manual review"⟩,
    ⟨"ia", "", "ok.txt", "unknown.txt",
     ⟨"c", "m", "", 4, "skipped"⟩, "", ""⟩]⟩]⟩

/-- Fixture: a single file whose stat raises. -/
def treeC8 : List Entry :=
  [Entry.file "broken.txt" none (some [])]

/-- The manifest the scan produces on `treeC8`. -/
def resC8 : ScanResult :=
  ⟨1, 1, [⟨"", [⟨"i", "", "broken.txt", "unknown.txt",
     ⟨"", "", "", 0, "error"⟩, "Error processing file",
     "File could not be processed, may require manual review"⟩]⟩]⟩

/-- Fixture: one subdirectory whose single file matches `*.txt`. -/
def treeC9 : List Entry :=
  [Entry.dir "a" [Entry.file "x.txt" (some ⟨"c", "m", 2⟩) (some [])]]

/-- The manifest the scan produces on `treeC9` without ignore-file rules. -/
def resC9b : ScanResult :=
  ⟨1, 1, [⟨"a", [⟨"i", "a", "x.txt", "unknown.txt",
     ⟨"c", "m", "", 2, "h"⟩, "", ""⟩]⟩]⟩

/-- Fixture: a small tree below a root whose path contains `venv`. -/
def treeC10 : List Entry :=
  [Entry.file "f.txt" (some ⟨"c", "m", 1⟩) (some []),
   Entry.dir "sub" [Entry.file "g.txt" (some ⟨"c", "m", 1⟩) (some [])]]

theorem startsB_of_nil {p : List Char} (h : startsB p [] = true) : p = [] := by
  cases p with
  | nil => rfl
  | cons a as => simp [startsB] at h

theorem startsB_append {p : List Char} :
    ∀ {cs : List Char} (ds : List Char), startsB p cs = true →
      startsB p (cs ++ ds) = true := by
  induction p with
  | nil => intro cs ds _; simp [startsB]
  | cons a as ih =>
      intro cs ds h
      cases cs with
      | nil => simp [startsB] at h
      | cons b bs =>
          simp only [startsB, Bool.and_eq_true] at h ⊢
          exact ⟨h.1, ih ds h.2⟩

theorem strInAux_nil_left (l : List Char) : strInAux [] l = true := by
  cases l with
  | nil => rfl
  | cons c s => simp [strInAux, startsB]

theorem strInAux_append {p : List Char} :
    ∀ {cs : List Char} (ds : List Char), strInAux p cs = true →
      strInAux p (cs ++ ds) = true := by
  intro cs
  induction cs with
  | nil =>
      intro ds h
      simp only [strInAux] at h
      obtain rfl := startsB_of_nil h
      simpa using strInAux_nil_left ds
  | cons c cs ih =>
      intro ds h
      simp only [strInAux, Bool.or_eq_true] at h ⊢
      cases h with
      | inl h => exact Or.inl (startsB_append ds h)
      | inr h => exact Or.inr (ih ds h)

theorem strIn_append (p s t : String) (h : strIn p s = true) :
    strIn p (s ++ t) = true := by
  have hdata : (s ++ t).data = s.data ++ t.data := rfl
  simpa [strIn, hdata] using strInAux_append t.data h

theorem pickFresh_fresh (ids : Nat → String) :
    ∀ fuel i used fid j, pickFresh ids fuel i used = some (fid, j) →
      used.contains fid = false := by
  intro fuel
  induction fuel with
  | zero => intro i used fid j h; simp [pickFresh] at h
  | succ fuel ih =>
      intro i used fid j h
      simp only [pickFresh] at h
      split at h
      · exact ih (i + 1) used fid j h
      · rename_i hc
        obtain ⟨rfl, rfl⟩ : ids i = fid ∧ i + 1 = j := by
          simpa using h
        simpa using hc

theorem nodup_concat {l : List String} {a : String}
    (hl : l.Nodup) (ha : a ∉ l) : (l ++ [a]).Nodup := by
  simp [List.nodup_append, hl, ha]

theorem folderIds_append (a b : List FolderRecord) :
    folderIds (a ++ b) = folderIds a ++ folderIds b := by
  induction a with
  | nil => simp [folderIds]
  | cons f rest ih => simp [folderIds, ih]

theorem sumFiles_append (a b : List FolderRecord) :
    sumFiles (a ++ b) = sumFiles a + sumFiles b := by
  induction a with
  | nil => simp [sumFiles]
  | cons f rest ih => simp [sumFiles, ih]; omega

/-- Structure of one run of the per-file loop: the folder list and the
counters are untouched, the accumulated entries and the `used_ids` list grow
in lock step by the new records' identifiers, no-duplication of `used_ids` is
preserved, and every new record has one of the two emitted shapes. -/
theorem processFiles_spec (cfg : ScanCfg) (fp rp : String) :
    ∀ fs st acc st2 acc2,
      processFiles cfg fp rp fs st acc = some (st2, acc2) →
      ∃ newRecs,
        st2.folders = st.folders ∧
        st2.total_folders = st.total_folders ∧
        st2.total_files = st.total_files ∧
        acc2 = acc ++ newRecs ∧
        st2.used = st.used ++ recIds newRecs ∧
        (st.used.Nodup → st2.used.Nodup) ∧
        (∀ r ∈ newRecs, recShape cfg.skipHash r) := by
  intro fs
  induction fs with
  | nil =>
      intro st acc st2 acc2 h
      obtain ⟨rfl, rfl⟩ : st = st2 ∧ acc = acc2 := by
        simpa [processFiles] using h
      exact ⟨[], rfl, rfl, rfl, by simp, by simp [recIds], fun hn => hn,
        by simp⟩
  | cons hd rest ih =>
      obtain ⟨name, stat, content⟩ := hd
      intro st acc st2 acc2 h
      simp only [processFiles] at h
      split at h
      · exact ih st acc st2 acc2 h
      · split at h
        · exact ih st acc st2 acc2 h
        · split at h
          · exact absurd h (by simp)
          · rename_i fid idx2 hpick
            obtain ⟨newRecs, hfold, htf, htfi, hacc, hused, hnd, hshape⟩ :=
              ih _ _ _ _ h
            have hid : (fileEntryOf cfg fid rp name stat content).id = fid := by
              cases stat <;> simp [fileEntryOf, mkOkRecord, mkErrRecord]
            have hfresh : fid ∉ st.used := by
              have := pickFresh_fresh cfg.env.ids cfg.env.idFuel st.idx
                st.used fid idx2 hpick
              simpa using this
            refine ⟨fileEntryOf cfg fid rp name stat content :: newRecs,
              ?_, ?_, ?_, ?_, ?_, ?_, ?_⟩
            · simpa using hfold
            · simpa using htf
            · simpa using htfi
            · simpa [List.append_assoc] using hacc
            · simp only [recIds, List.map_cons, hid] at *
              simpa [List.append_assoc] using hused
            · intro hn
              exact hnd (nodup_concat hn hfresh)
            · intro r hr
              cases hr with
              | head =>
                  cases stat with
                  | some s =>
                      refine Or.inl ⟨rfl, rfl, fun hs => ?_⟩
                      simp [fileEntryOf, mkOkRecord, calculate_file_hash, hs]
                  | none =>
                      refine Or.inr ⟨rfl, ?_, rfl⟩
                      simp [fileEntryOf, mkErrRecord]
              | tail _ hr => exact hshape r hr

theorem stChange_refl (skip : Bool) (st : ScanState) : StChange skip st st := by
  exact ⟨[], by simp, by simp [folderIds], fun hn => hn, by simp,
    by simp [sumFiles], by simp⟩

theorem stChange_trans {skip : Bool} {st1 st2 st3 : ScanState}
    (h12 : StChange skip st1 st2) (h23 : StChange skip st2 st3) :
    StChange skip st1 st3 := by
  obtain ⟨a, ha1, ha2, ha3, ha4, ha5, ha6⟩ := h12
  obtain ⟨b, hb1, hb2, hb3, hb4, hb5, hb6⟩ := h23
  refine ⟨a ++ b, ?_, ?_, fun hn => hb3 (ha3 hn), ?_, ?_, ?_⟩
  · rw [hb1, ha1, List.append_assoc]
  · rw [hb2, ha2, folderIds_append, List.append_assoc]
  · rw [hb4, ha4, List.length_append]; omega
  · rw [hb5, ha5, sumFiles_append]; omega
  · intro f hf
    rcases List.mem_append.mp hf with hf | hf
    · exact ha6 f hf
    · exact hb6 f hf

theorem processFolder_stChange (cfg : ScanCfg) (fp rp : String)
    (fs : List (String × Option FileStat × Option (List Nat)))
    (st st2 : ScanState) (h : processFolder cfg fp rp fs st = some st2) :
    StChange cfg.skipHash st st2 := by
  simp only [processFolder] at h
  split at h
  · exact absurd h (by simp)
  · rename_i stA entries hpf
    obtain ⟨newRecs, hfold, htf, htfi, hacc, hused, hnd, hshape⟩ :=
      processFiles_spec cfg fp rp fs st [] stA entries hpf
    simp only [List.nil_append] at hacc
    subst hacc
    split at h
    · rename_i hempty
      subst hempty
      obtain rfl : stA = st2 := by simpa using h
      exact ⟨[], by simpa [folderIds] using hfold,
        by simpa [folderIds, recIds] using hused,
        hnd, by simpa using htf, by simpa [sumFiles] using htfi, by simp⟩
    · rename_i hne
      obtain rfl : { stA with
          folders := stA.folders ++ [{ path := rp, files := entries }],
          total_folders := stA.total_folders + 1,
          total_files := stA.total_files + entries.length } = st2 := by
        simpa using h
      refine ⟨[{ path := rp, files := entries }], ?_, ?_, ?_, ?_, ?_, ?_⟩
      · simp [hfold]
      · simpa [folderIds] using hused
      · exact hnd
      · simp [htf]
      · simp [sumFiles, htfi]
      · intro f hf
        obtain rfl : f = { path := rp, files := entries } := by simpa using hf
        exact ⟨hne, hshape⟩

theorem scanChildren_stChange (cfg : ScanCfg)
    (go : String → String → List Entry → ScanState → Option ScanState)
    (hgo : ∀ fp rp es st st2, go fp rp es st = some st2 →
      StChange cfg.skipHash st st2) :
    ∀ es fp rp st st2, scanChildren cfg go fp rp es st = some st2 →
      StChange cfg.skipHash st st2 := by
  intro es
  induction es with
  | nil =>
      intro fp rp st st2 h
      obtain rfl : st = st2 := by simpa [scanChildren] using h
      exact stChange_refl _ _
  | cons e rest ih =>
      intro fp rp st st2 h
      cases e with
      | file n s c => exact ih fp rp st st2 (by simpa [scanChildren] using h)
      | dir d ces =>
          simp only [scanChildren] at h
          split at h
          · exact ih fp rp st st2 h
          · split at h
            · exact absurd h (by simp)
            · rename_i stm hm
              exact stChange_trans (hgo _ _ _ _ _ hm) (ih fp rp stm st2 h)

theorem scanDir_stChange (cfg : ScanCfg) :
    ∀ fuel fp rp es st st2, scanDir cfg fuel fp rp es st = some st2 →
      StChange cfg.skipHash st st2 := by
  intro fuel
  induction fuel with
  | zero => intro fp rp es st st2 h; simp [scanDir] at h
  | succ fuel ih =>
      intro fp rp es st st2 h
      simp only [scanDir] at h
      split at h
      · exact absurd h (by simp)
      · rename_i st1 heq
        have h1 : StChange cfg.skipHash st st1 := by
          split at heq
          · obtain rfl : st = st1 := by simpa using heq
            exact stChange_refl _ _
          · exact processFolder_stChange cfg fp rp (filesOf es) st st1 heq
        exact stChange_trans h1
          (scanChildren_stChange cfg (scanDir cfg fuel) ih es fp rp st1 st2 h)

/-- Structure of every completed scan: the result counters match the folder
list, all emitted identifiers are pairwise distinct, folders are non-empty,
and every record has one of the two emitted shapes. -/
theorem scan_directory_result (env : ScanEnv) (fuel : Nat) (td : String)
    (ip : Option (List String)) (ug sk : Bool) (tree : List Entry)
    (gl : Option (List String)) (res : ScanResult)
    (h : scan_directory env fuel td ip ug sk tree gl = some res) :
    res.total_folders = res.folders.length ∧
    res.total_files = sumFiles res.folders ∧
    (folderIds res.folders).Nodup ∧
    ∀ f ∈ res.folders, f.files ≠ [] ∧ ∀ r ∈ f.files, recShape sk r := by
  simp only [scan_directory] at h
  split at h
  · exact absurd h (by simp)
  · rename_i st heq
    obtain rfl :
        (⟨st.total_folders, st.total_files, st.folders⟩ : ScanResult) = res := by
      simpa using h
    obtain ⟨newF, h1, h2, h3, h4, h5, h6⟩ := scanDir_stChange _ fuel td "" tree
      initState st heq
    simp only [initState, List.nil_append] at h1 h2 h4 h5
    refine ⟨?_, ?_, ?_, ?_⟩
    · simpa [h1] using h4
    · simpa [h1] using h5
    · have : st.used.Nodup := h3 (by simp [initState])
      rw [h2] at this
      simpa [h1] using this
    · intro f hf
      rw [show st.folders = newF from h1] at hf
      exact h6 f hf

theorem strIn_join {p fp : String} (d : String) (h : strIn p fp = true) :
    strIn p (joinPath fp d) = true :=
  strIn_append p (fp ++ "/") d (strIn_append p fp "/" h)

theorem scanChildren_fix (cfg : ScanCfg)
    (go : String → String → List Entry → ScanState → Option ScanState)
    (fp rp : String)
    (hgo : ∀ d ces st', go (joinPath fp d) (childRel rp d) ces st' = none ∨
      go (joinPath fp d) (childRel rp d) ces st' = some st') :
    ∀ es st, scanChildren cfg go fp rp es st = none ∨
      scanChildren cfg go fp rp es st = some st := by
  intro es
  induction es with
  | nil => intro st; exact Or.inr rfl
  | cons e rest ih =>
      intro st
      cases e with
      | file n s c => simpa [scanChildren] using ih st
      | dir d ces =>
          simp only [scanChildren]
          split
          · exact ih st
          · rcases hgo d ces st with hg | hg
            · rw [hg]; exact Or.inl rfl
            · rw [hg]; exact ih st

theorem scanDir_rootSkip (cfg : ScanCfg) :
    ∀ fuel fp rp es st,
      cfg.ignorePats.any (fun p => strIn p fp) = true →
      (scanDir cfg fuel fp rp es st = none ∨
        scanDir cfg fuel fp rp es st = some st) := by
  intro fuel
  induction fuel with
  | zero => intro fp rp es st _; exact Or.inl rfl
  | succ fuel ih =>
      intro fp rp es st hfp
      have hchild : ∀ d ces st',
          scanDir cfg fuel (joinPath fp d) (childRel rp d) ces st' = none ∨
          scanDir cfg fuel (joinPath fp d) (childRel rp d) ces st' = some st' := by
        intro d ces st'
        refine ih (joinPath fp d) (childRel rp d) ces st' ?_
        rcases List.any_eq_true.mp hfp with ⟨p, hp, hin⟩
        exact List.any_eq_true.mpr ⟨p, hp, strIn_join d hin⟩
      simp only [scanDir, hfp, if_true]
      exact scanChildren_fix cfg (scanDir cfg fuel) fp rp hchild es st

/-- Claim C10: when the scan root's own path contains one of the configured
substring ignore patterns, every visited directory is skipped and a completed
scan yields an empty manifest: zero folders and zero files. -/
theorem c10_rootSkip_empty (env : ScanEnv) (fuel : Nat) (td : String)
    (ip : Option (List String)) (ug sk : Bool) (tree : List Entry)
    (gl : Option (List String)) (res : ScanResult)
    (hroot : (ip.getD defaultIgnorePatterns).any (fun p => strIn p td) = true)
    (h : scan_directory env fuel td ip ug sk tree gl = some res) :
    res = ⟨0, 0, []⟩ := by
  simp only [scan_directory] at h
  split at h
  · exact absurd h (by simp)
  · rename_i st heq
    rcases scanDir_rootSkip
        { env := env, ignorePats := ip.getD defaultIgnorePatterns,
          gitPats := gitPatsOf ug gl, skipHash := sk }
        fuel td "" tree initState hroot with hd | hd
    · rw [hd] at heq; exact absurd heq (by simp)
    · rw [hd] at heq
      obtain rfl : initState = st := by simpa using heq
      exact (Option.some.inj h).symm

/-- Witness for C10 at a concrete root whose path contains `venv`. -/
theorem c10_witness :
    ((none : Option (List String)).getD defaultIgnorePatterns).any
        (fun p => strIn p "/home/user/venv/proj") = true ∧
    scan_directory demoEnv 3 "/home/user/venv/proj" none true false treeC10
        none = some ⟨0, 0, []⟩ ∧
    (⟨0, 0, []⟩ : ScanResult) = ⟨0, 0, []⟩ :=
  ⟨by decide, by decide,
    c10_rootSkip_empty demoEnv 3 "/home/user/venv/proj" none true false
      treeC10 none ⟨0, 0, []⟩ (by decide) (by decide)⟩

/-- Claim C4: for every completed scan, `total_folders` equals the number of
folder records and `total_files` equals the sum over the folder records of
the lengths of their file lists. -/
theorem c4_totals (env : ScanEnv) (fuel : Nat) (td : String)
    (ip : Option (List String)) (ug sk : Bool) (tree : List Entry)
    (gl : Option (List String)) (res : ScanResult)
    (h : scan_directory env fuel td ip ug sk tree gl = some res) :
    res.total_folders = res.folders.length ∧
    res.total_files = sumFiles res.folders :=
  ⟨(scan_directory_result env fuel td ip ug sk tree gl res h).1,
   (scan_directory_result env fuel td ip ug sk tree gl res h).2.1⟩

/-- Witness for C4 at a concrete one-file scan. -/
theorem c4_witness :
    scan_directory demoEnv 2 "/t4" none true false treeC4 none = some resC4 ∧
    resC4.total_folders = resC4.folders.length ∧
    resC4.total_files = sumFiles resC4.folders :=
  ⟨by decide,
   c4_totals demoEnv 2 "/t4" none true false treeC4 none resC4 (by decide)⟩

/-- Claim C5: no folder record with an empty file list ever appears in a
completed scan's manifest. -/
theorem c5_no_empty_folders (env : ScanEnv) (fuel : Nat) (td : String)
    (ip : Option (List String)) (ug sk : Bool) (tree : List Entry)
    (gl : Option (List String)) (res : ScanResult)
    (h : scan_directory env fuel td ip ug sk tree gl = some res) :
    ∀ f ∈ res.folders, f.files ≠ [] :=
  fun f hf =>
    ((scan_directory_result env fuel td ip ug sk tree gl res h).2.2.2 f hf).1

/-- Witness for C5 at a concrete scan with a directory that only contains an
ignored entry. -/
theorem c5_witness :
    scan_directory demoEnv 3 "/t5" none true false treeC5 none = some resC5 ∧
    ∀ f ∈ resC5.folders, f.files ≠ [] :=
  ⟨by decide,
   c5_no_empty_folders demoEnv 3 "/t5" none true false treeC5 none resC5
     (by decide)⟩

/-- Claim C6: within a single completed scan, the `id` values of all emitted
file records (degraded ones included) are pairwise distinct. -/
theorem c6_distinct_ids (env : ScanEnv) (fuel : Nat) (td : String)
    (ip : Option (List String)) (ug sk : Bool) (tree : List Entry)
    (gl : Option (List String)) (res : ScanResult)
    (h : scan_directory env fuel td ip ug sk tree gl = some res) :
    (folderIds res.folders).Nodup :=
  (scan_directory_result env fuel td ip ug sk tree gl res h).2.2.1

/-- Witness for C6 at a concrete two-file scan. -/
theorem c6_witness :
    scan_directory demoEnv 2 "/t6" none true false treeC6 none = some resC6 ∧
    (folderIds resC6.folders).Nodup :=
  ⟨by decide,
   c6_distinct_ids demoEnv 2 "/t6" none true false treeC6 none resC6
     (by decide)⟩

/-- Counterexample for C8: a file whose metadata processing raises is written
with description `"Error processing file"`, not the empty string. -/
theorem c8_counterexample :
    scan_directory demoEnv 2 "/t8" none true false treeC8 none = some resC8 ∧
    (resC8.folders.map (fun f => f.files.map FileRecord.description)) =
      [["Error processing file"]] := by
  exact ⟨by decide, by decide⟩

/-- Claim C8 as amended: the description of every emitted file record is
either the empty string (normal records — `mkOkRecord` always carries an
empty description) or `"Error processing file"` (degraded records emitted
when per-file metadata processing raises). -/
theorem c8_amended (env : ScanEnv) (fuel : Nat) (td : String)
    (ip : Option (List String)) (ug sk : Bool) (tree : List Entry)
    (gl : Option (List String)) (res : ScanResult)
    (h : scan_directory env fuel td ip ug sk tree gl = some res) :
    (∀ f ∈ res.folders, ∀ r ∈ f.files,
      r.description = "" ∨ r.description = "Error processing file") ∧
    (∀ fid rp name ftype s hh,
      (mkOkRecord fid rp name ftype s hh).description = "") := by
  refine ⟨?_, fun _ _ _ _ _ _ => rfl⟩
  intro f hf r hr
  rcases ((scan_directory_result env fuel td ip ug sk tree gl res h).2.2.2
      f hf).2 r hr with hsh | hsh
  · exact Or.inl hsh.1
  · exact Or.inr hsh.1

/-- Witness for C8's amended statement at a concrete scan containing both a
normal and a degraded record. -/
theorem c8_witness :
    scan_directory demoEnv 2 "/t8w" none true true treeC7 none = some resC7 ∧
    (∀ f ∈ resC7.folders, ∀ r ∈ f.files,
      r.description = "" ∨ r.description = "Error processing file") :=
  ⟨by decide,
   (c8_amended demoEnv 2 "/t8w" none true true treeC7 none resC7 (by decide)).1⟩

/-- Counterexample for C1: under the patterns `*.tmp` then `!keep.tmp`, the
matcher excludes `keep.tmp` (the first matching rule `*.tmp` wins and the
negation is never reached), so the scan retains neither temp file. -/
theorem c1_counterexample :
    is_ignored "/t1/keep.tmp" "keep.tmp" ["*.tmp", "!keep.tmp"] = true ∧
    scan_directory demoEnv 2 "/t1" none true false treeC1
      (some ["*.tmp", "!keep.tmp"]) = some ⟨0, 0, []⟩ := by
  exact ⟨by decide, by decide⟩

/-- Claim C1 as amended: the FIRST matching rule in file order determines the
verdict (`firstMatchVerdict`), so for `*.tmp` followed by `!keep.tmp` both
`keep.tmp` and `other.tmp` are excluded — the later negation never applies. -/
theorem c1_amended (fp rel : String) (ps : List String) :
    is_ignored fp rel ps = firstMatchVerdict (checkPathOf rel) ps ∧
    is_ignored fp "keep.tmp" ["*.tmp", "!keep.tmp"] = true ∧
    is_ignored fp "other.tmp" ["*.tmp", "!keep.tmp"] = true := by
  refine ⟨?_, ?_, ?_⟩
  · simp only [is_ignored]
    induction ps with
    | nil => rfl
    | cons p ps ih =>
        cases hm : gmatch (compilePat (stripNeg p)) (checkPathOf rel).data with
        | true => simp [ignoreLoop, firstMatchVerdict, hm, List.find?]
        | false =>
            simp only [ignoreLoop, hm, Bool.false_eq_true, if_false]
            rw [ih]
            simp [firstMatchVerdict, List.find?, hm]
  · show ignoreLoop (checkPathOf "keep.tmp") ["*.tmp", "!keep.tmp"] = true
    decide
  · show ignoreLoop (checkPathOf "other.tmp") ["*.tmp", "!keep.tmp"] = true
    decide

/-- Counterexample for C2: under the directory-only pattern `build/`, the
file `build/output.bin` is still recorded in the manifest (the stripped
pattern `build` only matches paths that end in `build`). -/
theorem c2_counterexample :
    scan_directory demoEnv 3 "/t2" none true false treeC2
      (some ["build/"]) = some resC2 := by
  decide

/-- Claim C2 as amended: the pattern `build/` is stripped to `build` and,
being slash-free, matches only check paths ending in `build`; it does not
exclude `build/output.bin`, so the scan of the fixture records both
`build/output.bin` and `src/main.txt`. -/
theorem c2_amended (fp : String) :
    is_ignored fp "build/output.bin" ["build/"] = false ∧
    is_ignored fp "sub/build" ["build/"] = true ∧
    (scan_directory demoEnv 3 "/t2a" none true false treeC2
        (some ["build/"])).map (fun r => pathsOf r.folders) =
      some ["build", "src"] := by
  refine ⟨?_, ?_, by decide⟩
  · show ignoreLoop (checkPathOf "build/output.bin") ["build/"] = false
    decide
  · show ignoreLoop (checkPathOf "sub/build") ["build/"] = true
    decide

/-- Counterexample for C3: a file whose content cannot be read but whose stat
succeeds is recorded with hash `"hash_error"` (not `"error"`), its actual
stat size (not 0) and an empty `security_observations`. -/
theorem c3_counterexample :
    scan_directory demoEnv 2 "/t3" none true false treeC3 none = some resC3 ∧
    (resC3.folders.map fun f => f.files.map fun r =>
      (r.metadata.hash, r.metadata.size_bytes, r.security_observations)) =
      [[("hash_error", 5, "")]] := by
  exact ⟨by decide, by decide⟩

/-- Claim C3 as amended: a file whose content read fails but whose stat
succeeds yields a normal record with hash `"hash_error"`, the stat size and
empty `security_observations`; a file whose stat raises yields the degraded
record with hash `"error"`, size 0 and non-empty `security_observations`;
in both cases the loop continues with the remaining files. -/
theorem c3_amended (cfg : ScanCfg) (fp rp name : String) (s : FileStat)
    (content : Option (List Nat))
    (rest : List (String × Option FileStat × Option (List Nat)))
    (st : ScanState) (acc : List FileRecord) (fid : String) (idx2 : Nat)
    (hskip : cfg.skipHash = false)
    (hname : cfg.ignorePats.any (fun p => strIn p name) = false)
    (hgit : is_ignored (joinPath fp name) (fileRel rp name) cfg.gitPats = false)
    (hid : pickFresh cfg.env.ids cfg.env.idFuel st.idx st.used = some (fid, idx2)) :
    processFiles cfg fp rp ((name, some s, none) :: rest) st acc =
      processFiles cfg fp rp rest
        { st with idx := idx2, used := st.used ++ [fid] }
        (acc ++ [mkOkRecord fid rp name (fileTypeOf cfg.env name) s
          "hash_error"]) ∧
    (mkOkRecord fid rp name (fileTypeOf cfg.env name) s
      "hash_error").metadata.hash = "hash_error" ∧
    (mkOkRecord fid rp name (fileTypeOf cfg.env name) s
      "hash_error").metadata.size_bytes = s.size ∧
    (mkOkRecord fid rp name (fileTypeOf cfg.env name) s
      "hash_error").security_observations = "" ∧
    processFiles cfg fp rp ((name, none, content) :: rest) st acc =
      processFiles cfg fp rp rest
        { st with idx := idx2, used := st.used ++ [fid] }
        (acc ++ [mkErrRecord fid rp name (fileTypeOf cfg.env name)]) ∧
    (mkErrRecord fid rp name (fileTypeOf cfg.env name)).metadata.hash =
      "error" ∧
    (mkErrRecord fid rp name (fileTypeOf cfg.env name)).metadata.size_bytes
      = 0 ∧
    (mkErrRecord fid rp name (fileTypeOf cfg.env name)).security_observations
      ≠ "" := by
  refine ⟨?_, rfl, rfl, rfl, ?_, rfl, rfl, by simp [mkErrRecord]⟩
  · simp [processFiles, hname, hgit, hid, fileEntryOf, calculate_file_hash,
      hskip]
  · simp [processFiles, hname, hgit, hid, fileEntryOf]

theorem fileEntryOf_skip {cfg : ScanCfg} (hskip : cfg.skipHash = true)
    (fid rp name : String) (stat : Option FileStat)
    (content : Option (List Nat)) :
    fileEntryOf cfg fid rp name stat none =
      fileEntryOf cfg fid rp name stat content := by
  cases stat <;> simp [fileEntryOf, calculate_file_hash, hskip]

theorem filesOf_erase (fuel : Nat) :
    ∀ es, filesOf (eraseContentsL (fuel + 1) es) = eraseFilesL (filesOf es) := by
  intro es
  induction es with
  | nil => simp [eraseContentsL, filesOf, eraseFilesL]
  | cons e rest ih =>
      cases e with
      | file n s c => simp [eraseContentsL, filesOf, eraseFilesL, ih]
      | dir d ces => simp [eraseContentsL, filesOf, eraseFilesL, ih]

theorem processFiles_skip_content (cfg : ScanCfg) (hskip : cfg.skipHash = true)
    (fp rp : String) :
    ∀ fs st acc, processFiles cfg fp rp (eraseFilesL fs) st acc =
      processFiles cfg fp rp fs st acc := by
  intro fs
  induction fs with
  | nil => intro st acc; rfl
  | cons hd rest ih =>
      obtain ⟨name, stat, content⟩ := hd
      intro st acc
      simp only [eraseFilesL, List.map_cons] at *
      simp only [processFiles]
      cases hn : cfg.ignorePats.any (fun p => strIn p name) with
      | true => simpa using ih st acc
      | false =>
          simp only [Bool.false_eq_true, if_false]
          cases hg : is_ignored (joinPath fp name) (fileRel rp name) cfg.gitPats with
          | true => simpa using ih st acc
          | false =>
              simp only [Bool.false_eq_true, if_false]
              cases hp : pickFresh cfg.env.ids cfg.env.idFuel st.idx st.used with
              | none => rfl
              | some pr =>
                  obtain ⟨fid, idx2⟩ := pr
                  dsimp only
                  rw [fileEntryOf_skip hskip fid rp name stat content]
                  exact ih _ _

theorem processFolder_skip_content (cfg : ScanCfg)
    (hskip : cfg.skipHash = true) (fp rp : String)
    (fs : List (String × Option FileStat × Option (List Nat)))
    (st : ScanState) :
    processFolder cfg fp rp (eraseFilesL fs) st =
      processFolder cfg fp rp fs st := by
  simp only [processFolder, processFiles_skip_content cfg hskip fp rp]

theorem scanChildren_erase (cfg : ScanCfg) (fuel : Nat)
    (go : String → String → List Entry → ScanState → Option ScanState)
    (hgo : ∀ fp rp ces st, go fp rp (eraseContentsL fuel ces) st =
      go fp rp ces st) (fp rp : String) :
    ∀ es st, scanChildren cfg go fp rp (eraseContentsL (fuel + 1) es) st =
      scanChildren cfg go fp rp es st := by
  intro es
  induction es with
  | nil => intro st; simp [eraseContentsL]
  | cons e rest ih =>
      intro st
      cases e with
      | file n s c => simp [eraseContentsL, scanChildren, ih]
      | dir d ces =>
          simp only [eraseContentsL, scanChildren]
          cases hd : cfg.ignorePats.any (fun p => strIn p d) with
          | true => simp [ih]
          | false =>
              simp only [Bool.false_eq_true, if_false, hgo]
              cases hg : go (joinPath fp d) (childRel rp d) ces st with
              | none => rfl
              | some st2 => exact ih st2

theorem scanDir_erase (cfg : ScanCfg) (hskip : cfg.skipHash = true) :
    ∀ fuel fp rp es st,
      scanDir cfg fuel fp rp (eraseContentsL fuel es) st =
        scanDir cfg fuel fp rp es st := by
  intro fuel
  induction fuel with
  | zero => intro fp rp es st; rfl
  | succ fuel ih =>
      intro fp rp es st
      simp only [scanDir, filesOf_erase fuel es,
        processFolder_skip_content cfg hskip]
      cases hs : (if cfg.ignorePats.any (fun p => strIn p fp) = true
          then some st else processFolder cfg fp rp (filesOf es) st) with
      | none => rfl
      | some st1 =>
          dsimp only
          exact scanChildren_erase cfg fuel (scanDir cfg fuel) ih fp rp es st1

/-- Counterexample for C7: under `skipHashing = true`, a file whose stat
raises is still recorded with hash `"error"`, so not every record carries the
`"skipped"` sentinel. -/
theorem c7_counterexample :
    scan_directory demoEnv 2 "/t7" none true true treeC7 none = some resC7 ∧
    (resC7.folders.map fun f => f.files.map fun r => r.metadata.hash) =
      [["error", "skipped"]] := by
  exact ⟨by decide, by decide⟩

/-- Claim C7 as amended: under `skipHashing = true` every record of a file
whose stat succeeded carries hash `"skipped"` (degraded records carry
`"error"`), and no file content is ever read for hashing: the whole scan is
unchanged when every content is erased, and `calculate_file_hash` returns the
sentinel without looking at the content. -/
theorem c7_amended (env : ScanEnv) (fuel : Nat) (td : String)
    (ip : Option (List String)) (ug : Bool) (tree : List Entry)
    (gl : Option (List String)) :
    (∀ res, scan_directory env fuel td ip ug true tree gl = some res →
      ∀ f ∈ res.folders, ∀ r ∈ f.files,
        r.metadata.hash = "skipped" ∨ r.metadata.hash = "error") ∧
    scan_directory env fuel td ip ug true tree gl =
      scan_directory env fuel td ip ug true (eraseContentsL fuel tree) gl ∧
    (∀ sha content, calculate_file_hash sha content true = "skipped") := by
  refine ⟨?_, ?_, fun _ _ => rfl⟩
  · intro res h f hf r hr
    rcases ((scan_directory_result env fuel td ip ug true tree gl res h).2.2.2
        f hf).2 r hr with hsh | hsh
    · exact Or.inl (hsh.2.2 rfl)
    · exact Or.inr hsh.2.2
  · simp only [scan_directory]
    rw [scanDir_erase _ rfl]

/-- Witness for C7's amended statement at a concrete hash-skipping scan. -/
theorem c7_witness :
    scan_directory demoEnv 2 "/t7w" none true true treeC7 none = some resC7 ∧
    (∀ f ∈ resC7.folders, ∀ r ∈ f.files,
      r.metadata.hash = "skipped" ∨ r.metadata.hash = "error") :=
  ⟨by decide,
   (c7_amended demoEnv 2 "/t7w" none true treeC7 none).1 resC7 (by decide)⟩

theorem pairChange_refl (st st' : ScanState) : PairChange st st st' st' :=
  ⟨[], [], by simp, by simp, by simp [pathsOf]⟩

theorem pairChange_trans {s1 s2 s3 s1' s2' s3' : ScanState}
    (a : PairChange s1 s2 s1' s2') (b : PairChange s2 s3 s2' s3') :
    PairChange s1 s3 s1' s3' := by
  obtain ⟨d1, d1', h1, h1', hs⟩ := a
  obtain ⟨d2, d2', h2, h2', hs'⟩ := b
  refine ⟨d1 ++ d2, d1' ++ d2', ?_, ?_, ?_⟩
  · rw [h2, h1, List.append_assoc]
  · rw [h2', h1', List.append_assoc]
  · simpa [pathsOf] using hs.append hs'

/-- Dropping the ignore-file patterns can only let the per-file loop keep
more files: the accumulated entry count with patterns is at most the count
without. -/
theorem processFiles_len_le (cfg cfg0 : ScanCfg) (fp rp : String)
    (hip : cfg0.ignorePats = cfg.ignorePats) (hgp : cfg0.gitPats = []) :
    ∀ fs st st' acc acc' st2 acc2 st2' acc2',
      acc.length ≤ acc'.length →
      processFiles cfg fp rp fs st acc = some (st2, acc2) →
      processFiles cfg0 fp rp fs st' acc' = some (st2', acc2') →
      acc2.length ≤ acc2'.length := by
  intro fs
  induction fs with
  | nil =>
      intro st st' acc acc' st2 acc2 st2' acc2' hlen h h'
      obtain ⟨rfl, rfl⟩ : st = st2 ∧ acc = acc2 := by
        simpa [processFiles] using h
      obtain ⟨rfl, rfl⟩ : st' = st2' ∧ acc' = acc2' := by
        simpa [processFiles] using h'
      exact hlen
  | cons hd rest ih =>
      obtain ⟨name, stat, content⟩ := hd
      intro st st' acc acc' st2 acc2 st2' acc2' hlen h h'
      simp only [processFiles] at h h'
      rw [hip, hgp] at h'
      simp only [show ∀ a b, is_ignored a b [] = false from fun _ _ => rfl]
        at h'
      cases hn : cfg.ignorePats.any (fun p => strIn p name) with
      | true =>
          rw [hn] at h h'
          simp only [if_true] at h h'
          exact ih st st' acc acc' st2 acc2 st2' acc2' hlen h h'
      | false =>
          rw [hn] at h h'
          simp only [Bool.false_eq_true, if_false] at h h'
          cases hp' : pickFresh cfg0.env.ids cfg0.env.idFuel st'.idx st'.used
            with
          | none => rw [hp'] at h'; exact absurd h' (by simp)
          | some pr' =>
              obtain ⟨fid', idx2'⟩ := pr'
              rw [hp'] at h'
              dsimp only at h'
              cases hg : is_ignored (joinPath fp name) (fileRel rp name)
                  cfg.gitPats with
              | true =>
                  rw [hg] at h
                  simp only [if_true] at h
                  exact ih _ _ _ _ _ _ _ _ (by simp; omega) h h'
              | false =>
                  rw [hg] at h
                  simp only [Bool.false_eq_true, if_false] at h
                  cases hp : pickFresh cfg.env.ids cfg.env.idFuel st.idx
                      st.used with
                  | none => rw [hp] at h; exact absurd h (by simp)
                  | some pr =>
                      obtain ⟨fid, idx2⟩ := pr
                      rw [hp] at h
                      dsimp only at h
                      exact ih _ _ _ _ _ _ _ _ (by simp; omega) h h'

/-- Processing one directory's files with and without ignore-file patterns:
both runs only append folders, and the run with patterns appends a folder
only if the run without does. -/
theorem processFolder_pair (cfg cfg0 : ScanCfg)
    (hip : cfg0.ignorePats = cfg.ignorePats) (hgp : cfg0.gitPats = [])
    (fp rp : String) (fs : List (String × Option FileStat × Option (List Nat)))
    (st st' st2 st2' : ScanState)
    (h : processFolder cfg fp rp fs st = some st2)
    (h' : processFolder cfg0 fp rp fs st' = some st2') :
    PairChange st st2 st' st2' := by
  simp only [processFolder] at h h'
  cases hpf : processFiles cfg fp rp fs st [] with
  | none => rw [hpf] at h; exact absurd h (by simp)
  | some pr =>
      obtain ⟨stA, entries⟩ := pr
      rw [hpf] at h
      dsimp only at h
      cases hpf' : processFiles cfg0 fp rp fs st' [] with
      | none => rw [hpf'] at h'; exact absurd h' (by simp)
      | some pr' =>
          obtain ⟨stA', entries'⟩ := pr'
          rw [hpf'] at h'
          dsimp only at h'
          have hlen := processFiles_len_le cfg cfg0 fp rp hip hgp fs st st'
            [] [] stA entries stA' entries' (Nat.le_refl 0) hpf hpf'
          obtain ⟨_, hAfold, _, _, _, _, _, _⟩ :=
            processFiles_spec cfg fp rp fs st [] stA entries hpf
          obtain ⟨_, hBfold, _, _, _, _, _, _⟩ :=
            processFiles_spec cfg0 fp rp fs st' [] stA' entries' hpf'
          split at h
          · obtain rfl : stA = st2 := by simpa using h
            split at h'
            · obtain rfl : stA' = st2' := by simpa using h'
              exact ⟨[], [], by simp [hAfold], by simp [hBfold],
                by simp [pathsOf]⟩
            · obtain rfl : { stA' with
                  folders := stA'.folders ++ [{ path := rp, files := entries' }],
                  total_folders := stA'.total_folders + 1,
                  total_files := stA'.total_files + entries'.length } = st2' := by
                simpa using h'
              exact ⟨[], [{ path := rp, files := entries' }],
                by simp [hAfold], by simp [hBfold], by simp [pathsOf]⟩
          · rename_i hne
            have hne' : ¬(entries' = []) := by
              intro he'
              subst he'
              simp only [List.length_nil, Nat.le_zero,
                List.length_eq_zero] at hlen
              exact hne hlen
            split at h'
            · rename_i he'; exact absurd he' hne'
            · obtain rfl : { stA with
                  folders := stA.folders ++ [{ path := rp, files := entries }],
                  total_folders := stA.total_folders + 1,
                  total_files := stA.total_files + entries.length } = st2 := by
                simpa using h
              obtain rfl : { stA' with
                  folders := stA'.folders ++ [{ path := rp, files := entries' }],
                  total_folders := stA'.total_folders + 1,
                  total_files := stA'.total_files + entries'.length } = st2' := by
                simpa using h'
              refine ⟨[{ path := rp, files := entries }],
                [{ path := rp, files := entries' }],
                by simp [hAfold], by simp [hBfold], ?_⟩
              simp [pathsOf]

theorem scanChildren_pair (cfg cfg0 : ScanCfg)
    (hip : cfg0.ignorePats = cfg.ignorePats)
    (go go' : String → String → List Entry → ScanState → Option ScanState)
    (hgo : ∀ fp rp es s t s' t', go fp rp es s = some t →
      go' fp rp es s' = some t' → PairChange s t s' t') :
    ∀ es fp rp st st' st2 st2',
      scanChildren cfg go fp rp es st = some st2 →
      scanChildren cfg0 go' fp rp es st' = some st2' →
      PairChange st st2 st' st2' := by
  intro es
  induction es with
  | nil =>
      intro fp rp st st' st2 st2' h h'
      obtain rfl : st = st2 := by simpa [scanChildren] using h
      obtain rfl : st' = st2' := by simpa [scanChildren] using h'
      exact pairChange_refl st st'
  | cons e rest ih =>
      intro fp rp st st' st2 st2' h h'
      cases e with
      | file n s c =>
          exact ih fp rp st st' st2 st2' (by simpa [scanChildren] using h)
            (by simpa [scanChildren] using h')
      | dir d ces =>
          simp only [scanChildren] at h h'
          rw [hip] at h'
          cases hd : cfg.ignorePats.any (fun p => strIn p d) with
          | true =>
              rw [hd] at h h'
              simp only [if_true] at h h'
              exact ih fp rp st st' st2 st2' h h'
          | false =>
              rw [hd] at h h'
              simp only [Bool.false_eq_true, if_false] at h h'
              cases hm : go (joinPath fp d) (childRel rp d) ces st with
              | none => rw [hm] at h; exact absurd h (by simp)
              | some stm =>
                  rw [hm] at h
                  dsimp only at h
                  cases hm' : go' (joinPath fp d) (childRel rp d) ces st' with
                  | none => rw [hm'] at h'; exact absurd h' (by simp)
                  | some stm' =>
                      rw [hm'] at h'
                      dsimp only at h'
                      exact pairChange_trans (hgo _ _ _ _ _ _ _ hm hm')
                        (ih fp rp stm stm' st2 st2' h h')

/-- Two walks of the same tree, with and without ignore-file patterns: the
walk with patterns appends a sub-sequence of the folder paths the walk
without patterns appends (the visited directories are the same; only
folders emptied by the patterns disappear). -/
theorem scanDir_pair (cfg cfg0 : ScanCfg)
    (hip : cfg0.ignorePats = cfg.ignorePats) (hgp : cfg0.gitPats = []) :
    ∀ fuel fp rp es st st' st2 st2',
      scanDir cfg fuel fp rp es st = some st2 →
      scanDir cfg0 fuel fp rp es st' = some st2' →
      PairChange st st2 st' st2' := by
  intro fuel
  induction fuel with
  | zero => intro fp rp es st st' st2 st2' h _; simp [scanDir] at h
  | succ fuel ih =>
      intro fp rp es st st' st2 st2' h h'
      simp only [scanDir] at h h'
      rw [hip] at h'
      cases hroot : cfg.ignorePats.any (fun p => strIn p fp) with
      | true =>
          rw [hroot] at h h'
          simp only [if_true] at h h'
          exact scanChildren_pair cfg cfg0 hip (scanDir cfg fuel)
            (scanDir cfg0 fuel) (fun a b c s t s' t' => ih a b c s s' t t')
            es fp rp st st' st2 st2' h h'
      | false =>
          rw [hroot] at h h'
          simp only [Bool.false_eq_true, if_false] at h h'
          cases hpf : processFolder cfg fp rp (filesOf es) st with
          | none => rw [hpf] at h; exact absurd h (by simp)
          | some st1 =>
              rw [hpf] at h
              dsimp only at h
              cases hpf' : processFolder cfg0 fp rp (filesOf es) st' with
              | none => rw [hpf'] at h'; exact absurd h' (by simp)
              | some st1' =>
                  rw [hpf'] at h'
                  dsimp only at h'
                  exact pairChange_trans
                    (processFolder_pair cfg cfg0 hip hgp fp rp (filesOf es)
                      st st' st1 st1' hpf hpf')
                    (scanChildren_pair cfg cfg0 hip (scanDir cfg fuel)
                      (scanDir cfg0 fuel)
                      (fun a b c s t s' t' => ih a b c s s' t t')
                      es fp rp st1 st1' st2 st2' h h')

/-- Counterexample for C9: the same tree scanned with ignore-file pattern
`*.txt` and without yields different folder-record lists (`[]` versus
`["a"]`), so the emitted FolderRecords are not independent of the
ignore-file patterns. -/
theorem c9_counterexample :
    (scan_directory demoEnv 3 "/t9" none true false treeC9
        (some ["*.txt"])).map (fun r => pathsOf r.folders) = some [] ∧
    (scan_directory demoEnv 3 "/t9" none true false treeC9 none).map
        (fun r => pathsOf r.folders) = some ["a"] := by
  exact ⟨by decide, by decide⟩

/-- Claim C9 as amended: ignore-file rules are consulted only for individual
file paths and never prune the traversal — but they do influence which
FolderRecords appear, because a folder whose surviving file list is empty is
dropped.  Hence the folder paths of a scan with ignore-file patterns form a
sublist of the folder paths of the same scan without them. -/
theorem c9_amended (env : ScanEnv) (fuel : Nat) (td : String)
    (ip : Option (List String)) (sk : Bool) (tree : List Entry)
    (gl : Option (List String)) (res res' : ScanResult)
    (h : scan_directory env fuel td ip true sk tree gl = some res)
    (h' : scan_directory env fuel td ip true sk tree none = some res') :
    (pathsOf res.folders).Sublist (pathsOf res'.folders) := by
  simp only [scan_directory] at h h'
  split at h
  · exact absurd h (by simp)
  · rename_i st heq
    split at h'
    · exact absurd h' (by simp)
    · rename_i st' heq'
      obtain rfl :
          (⟨st.total_folders, st.total_files, st.folders⟩ : ScanResult)
            = res := by simpa using h
      obtain rfl :
          (⟨st'.total_folders, st'.total_files, st'.folders⟩ : ScanResult)
            = res' := by simpa using h'
      obtain ⟨d, d', hd, hd', hs⟩ :=
        scanDir_pair
          { env := env, ignorePats := ip.getD defaultIgnorePatterns,
            gitPats := gitPatsOf true gl, skipHash := sk }
          { env := env, ignorePats := ip.getD defaultIgnorePatterns,
            gitPats := gitPatsOf true none, skipHash := sk }
          rfl rfl fuel td "" tree initState initState st st' heq heq'
      simp only [initState, List.nil_append] at hd hd'
      rw [show st.folders = d from hd, show st'.folders = d' from hd']
      exact hs

/-- Witness for C9's amended statement at a concrete pair of scans. -/
theorem c9_witness :
    scan_directory demoEnv 3 "/t9w" none true false treeC9
      (some ["*.txt"]) = some ⟨0, 0, []⟩ ∧
    scan_directory demoEnv 3 "/t9w" none true false treeC9 none
      = some resC9b ∧
    (pathsOf (⟨0, 0, []⟩ : ScanResult).folders).Sublist
      (pathsOf resC9b.folders) :=
  ⟨by decide, by decide,
   c9_amended demoEnv 3 "/t9w" none false treeC9 (some ["*.txt"])
     ⟨0, 0, []⟩ resC9b (by decide) (by decide)⟩

/-- Witness for C3's amended statement at concrete inputs. -/
theorem c3_witness :
    demoCfg.skipHash = false ∧
    demoCfg.ignorePats.any (fun p => strIn p "locked.txt") = false ∧
    is_ignored (joinPath "/t" "locked.txt") (fileRel "" "locked.txt")
      demoCfg.gitPats = false ∧
    pickFresh demoCfg.env.ids demoCfg.env.idFuel initState.idx initState.used
      = some ("i", 1) ∧
    (mkErrRecord "i" "" "locked.txt"
      (fileTypeOf demoCfg.env "locked.txt")).security_observations ≠ "" :=
  ⟨rfl, by decide, by decide, by decide,
   (c3_amended demoCfg "/t" "" "locked.txt" ⟨"c", "m", 5⟩ (some []) []
     initState [] "i" 1 rfl (by decide) (by decide)
     (by decide)).2.2.2.2.2.2.2⟩

end Indexer
